import Mathlib

/-!
Shallow embedding of the extractive-summarization core of the article-scraper
repository, together with proofs settling the specification claims.

Modelling conventions:
* Python strings are `List Char`; concrete inputs are written with `String.toList`.
* Python floats are modelled as exact rationals (`ℚ`).  All claims settled here
  are about sentence counts, ordering and selection, which are insensitive to
  the float/rational distinction; `round` is Python's banker's rounding,
  modelled exactly by `pyRound`.
* Character classes (`\w`, `\s`, `str.lower`, `str.isalnum`) are modelled on
  their ASCII fragment, which is the fragment exercised by the code and spec.
* Python's stable `sorted` (Timsort) is a stable sort; it is modelled by
  `List.insertionSort`, which is stable, sorted and a permutation - the three
  properties that determine the function uniquely.
* `nltk` stopword data is an external collaborator; functions that consume it
  take the stopword predicate as a parameter.
-/

namespace ArticleScraper

/-- ASCII fragment of the Python regex class `\s` (also what `str.split()` and
`str.strip()` treat as whitespace). -/
def isPySpace (c : Char) : Bool :=
  c = ' ' || c = '\t' || c = '\n' || c = '\r' || c = '\x0b' || c = '\x0c'

/-- ASCII fragment of the Python regex class `\w`. -/
def isWordChar (c : Char) : Bool :=
  c.isAlpha || c.isDigit || c = '_'

/-- Characters kept by the substitution `re.sub(r'[^\w\s.,!?-]', '', text)`
shared by `text_processor.TextProcessor.clean` and
`processor.TextProcessor._remove_special_chars`. -/
def Kept (c : Char) : Bool :=
  isWordChar c || isPySpace c || c = '.' || c = ',' || c = '!' || c = '?' || c = '-'

/-- The ASCII uppercase-to-lowercase table. -/
def upperLower : List (Char × Char) :=
  [('A','a'), ('B','b'), ('C','c'), ('D','d'), ('E','e'), ('F','f'), ('G','g'),
   ('H','h'), ('I','i'), ('J','j'), ('K','k'), ('L','l'), ('M','m'), ('N','n'),
   ('O','o'), ('P','p'), ('Q','q'), ('R','r'), ('S','s'), ('T','t'), ('U','u'),
   ('V','v'), ('W','w'), ('X','x'), ('Y','y'), ('Z','z')]

/-- ASCII model of lower-casing one character (`str.lower`). -/
def lowerChar (c : Char) : Char :=
  match upperLower.find? (fun p => p.1 = c) with
  | some p => p.2
  | none => c

/-- `text.lower()`. -/
def lowerL (l : List Char) : List Char := l.map lowerChar

/-- `re.sub(r'\s+', ' ', text)`: every maximal run of whitespace becomes one
space (the single output space is emitted at the last character of the run). -/
def collapseWS : List Char → List Char
  | [] => []
  | [c] => [if isPySpace c then ' ' else c]
  | c :: d :: rest =>
    if isPySpace c && isPySpace d then collapseWS (d :: rest)
    else (if isPySpace c then ' ' else c) :: collapseWS (d :: rest)

/-- `str.strip()`: drop leading and trailing whitespace. -/
def pyStrip (l : List Char) : List Char :=
  ((l.dropWhile isPySpace).reverse.dropWhile isPySpace).reverse

/-- Fuel-indexed worker for `replaceAll`; fuel bounds the number of characters
consumed, which makes the recursion structural. -/
def replaceAllGo (pat rep : List Char) : Nat → List Char → List Char
  | _, [] => []
  | 0, l => l
  | fuel + 1, c :: rest =>
    if pat.isPrefixOf (c :: rest) then
      rep ++ replaceAllGo pat rep fuel ((c :: rest).drop pat.length)
    else c :: replaceAllGo pat rep fuel rest

/-- `re.sub(pat, rep, text)` for a literal (regex-free, non-empty) pattern:
replace each leftmost non-overlapping occurrence. -/
def replaceAll (pat rep l : List Char) : List Char :=
  replaceAllGo pat rep l.length l

/-- The four HTML-entity substitutions shared by both cleaners, in source
order: `&nbsp;` to a space, `&amp;` to `&`, and the two identity
substitutions of `<` and `>` that appear verbatim in the source. -/
def entitySub (l : List Char) : List Char :=
  replaceAll ['>'] ['>']
    (replaceAll ['<'] ['<']
      (replaceAll ['&','a','m','p',';'] ['&']
        (replaceAll ['&','n','b','s','p',';'] [' '] l)))

/-- Worker for `re.sub(r'<[^>]+>', '', text)` (text_processor variant): at a
`<`, a match needs at least one non-`>` character followed by `>`. -/
def removeTagsGo : Nat → List Char → List Char
  | _, [] => []
  | 0, l => l
  | fuel + 1, c :: rest =>
    if c = '<' then
      let pre := rest.takeWhile (· ≠ '>')
      if pre ≠ [] ∧ pre.length < rest.length then
        removeTagsGo fuel (rest.drop (pre.length + 1))
      else c :: removeTagsGo fuel rest
    else c :: removeTagsGo fuel rest

/-- `re.sub(r'<[^>]+>', '', text)`. -/
def removeTags (l : List Char) : List Char := removeTagsGo l.length l

/-- Worker for `re.sub('<.*?>', '', text)` (processor variant): non-greedy, so
a match runs to the first `>`, requires no newline before it, and allows the
empty tag `<>`. -/
def procRemoveTagsGo : Nat → List Char → List Char
  | _, [] => []
  | 0, l => l
  | fuel + 1, c :: rest =>
    if c = '<' then
      let pre := rest.takeWhile (· ≠ '>')
      if pre.length < rest.length ∧ '\n' ∉ pre then
        procRemoveTagsGo fuel (rest.drop (pre.length + 1))
      else c :: procRemoveTagsGo fuel rest
    else c :: procRemoveTagsGo fuel rest

/-- `re.sub('<.*?>', '', text)`. -/
def procRemoveTags (l : List Char) : List Char := procRemoveTagsGo l.length l

/-- Worker for `re.sub(r'\n\s*\n', '\n\n', text)`: a match is a newline, a
(backtracking-maximal) whitespace run that contains another newline, replaced
by exactly two newlines. -/
def normalizeParagraphsGo : Nat → List Char → List Char
  | _, [] => []
  | 0, l => l
  | fuel + 1, c :: rest =>
    if c = '\n' then
      let ws := rest.takeWhile isPySpace
      if '\n' ∈ ws then
        let tailLen := (ws.reverse.takeWhile (· ≠ '\n')).length
        '\n' :: '\n' :: normalizeParagraphsGo fuel (rest.drop (ws.length - tailLen))
      else c :: normalizeParagraphsGo fuel rest
    else c :: normalizeParagraphsGo fuel rest

/-- `re.sub(r'\n\s*\n', '\n\n', text)`. -/
def normalizeParagraphs (l : List Char) : List Char := normalizeParagraphsGo l.length l

/-- Accumulator worker for Python `str.split(sep)` with a one-character
separator, which keeps empty fragments. -/
def splitOnAux (sep : Char) : List Char → List Char → List (List Char)
  | [], acc => [acc.reverse]
  | c :: rest, acc =>
    if c = sep then acc.reverse :: splitOnAux sep rest []
    else splitOnAux sep rest (c :: acc)

/-- Python `text.split(sep)` for a one-character separator. -/
def splitOn (sep : Char) (l : List Char) : List (List Char) := splitOnAux sep l []

/-- Accumulator worker for Python `str.split()` (no argument): split on
whitespace runs, producing no empty words. -/
def pySplitWSAux : List Char → List Char → List (List Char)
  | [], acc => if acc = [] then [] else [acc.reverse]
  | c :: rest, acc =>
    if isPySpace c then
      if acc = [] then pySplitWSAux rest []
      else acc.reverse :: pySplitWSAux rest []
    else pySplitWSAux rest (c :: acc)

/-- Python `text.split()`. -/
def pySplitWS (l : List Char) : List (List Char) := pySplitWSAux l []

/-- Python `sep.join(parts)`. -/
def joinSep (sep : List Char) : List (List Char) → List Char
  | [] => []
  | [s] => s
  | s :: rest => s ++ sep ++ joinSep sep rest

/-- `' '.join(parts)`. -/
def joinSpace : List (List Char) → List Char := joinSep [' ']

/-- `'. '.join(parts)`. -/
def joinDotSpace : List (List Char) → List Char := joinSep ['.', ' ']

/-- Python `round`: round half to even (banker's rounding). -/
def pyRound (q : ℚ) : ℤ :=
  if q - Rat.floor q < 1/2 then Rat.floor q
  else if (1 : ℚ)/2 < q - Rat.floor q then Rat.floor q + 1
  else if Even (Rat.floor q) then Rat.floor q else Rat.floor q + 1

/-- Python slice `l[:k]` for an integer `k` of either sign: a nonnegative `k`
takes the first `k` elements, a negative `k` drops the last `-k`. -/
def pySliceTo (k : ℤ) (l : List α) : List α :=
  if 0 ≤ k then l.take k.toNat else l.take (l.length - (-k).toNat)

/-- Descending-score comparison used to model
`sorted(pairs, key=lambda x: x[1], reverse=True)` (stable). -/
def descScore {α : Type} (a b : α × ℚ) : Prop := b.2 ≤ a.2

instance {α : Type} : DecidableRel (@descScore α) :=
  fun a b => inferInstanceAs (Decidable (b.2 ≤ a.2))

instance {α : Type} : IsTotal (α × ℚ) descScore := ⟨fun a b => le_total b.2 a.2⟩

instance {α : Type} : IsTrans (α × ℚ) descScore := ⟨fun _ _ _ h1 h2 => le_trans h2 h1⟩

/-- Python `word.isalnum()`: non-empty and all alphanumeric (ASCII model). -/
def isAlnumWord (w : List Char) : Bool := w ≠ [] && w.all Char.isAlphanum

/-- Python `word.endswith(('.', '!', '?'))`. -/
def endsWithTerm (w : List Char) : Bool :=
  match w.getLast? with
  | some c => c = '.' || c = '!' || c = '?'
  | none => false

namespace TextProcessor

/-- `text_processor.TextProcessor.clean` (lines 19-42): lower-case, strip
HTML tags and entities, collapse whitespace, drop special characters, strip.
The steps are applied in exactly the source order. -/
def clean (l : List Char) : List Char :=
  if l = [] then []
  else pyStrip ((collapseWS (entitySub (removeTags (lowerL l)))).filter Kept)

/-- `text_processor.TextProcessor.split_into_sentences` (lines 44-53):
normalize `!` and `?` to `.`, split on `.`, strip fragments, drop empty
ones.  There is no minimum-token filter in the source. -/
def split_into_sentences (l : List Char) : List (List Char) :=
  ((splitOn '.' (l.map (fun c => if c = '!' || c = '?' then '.' else c))).map
    pyStrip).filter (· ≠ [])

/-- Result record of `text_processor.TextProcessor.get_text_stats`. -/
structure TextStats where
  num_sentences : Nat
  num_words : Nat
  avg_sentence_length : ℚ
  reading_time : ℤ
  deriving Repr

/-- `text_processor.TextProcessor.get_text_stats` (lines 70-83). -/
def get_text_stats (l : List Char) : TextStats :=
  let sentences := split_into_sentences l
  let words := pySplitWS l
  { num_sentences := sentences.length
    num_words := words.length
    avg_sentence_length :=
      if sentences.length = 0 then 0 else (words.length : ℚ) / sentences.length
    reading_time := max 1 (pyRound ((words.length : ℚ) / 200)) }

end TextProcessor

namespace Processor

/-- `processor.TextProcessor.clean` (lines 23-51): same pipeline as the
text_processor variant plus `_normalize_paragraphs` before the final strip,
and the non-greedy tag regex. -/
def clean (l : List Char) : List Char :=
  if l = [] then []
  else
    pyStrip (normalizeParagraphs
      ((collapseWS (entitySub (procRemoveTags (lowerL l)))).filter Kept))

/-- One source line of `processor.TextProcessor.split_into_sentences`: walk
the words, flushing the accumulated words into a sentence after each word
that ends with a terminator.  Returns emitted sentences and the carry. -/
def splitWords : List (List Char) → List (List Char) → List (List Char) × List (List Char)
  | [], cur => ([], cur)
  | w :: ws, cur =>
    if endsWithTerm w then
      let p := splitWords ws []
      (joinSpace (cur ++ [w]) :: p.1, p.2)
    else splitWords ws (cur ++ [w])

/-- Line loop of `processor.TextProcessor.split_into_sentences`: a blank line
flushes the carried words as a sentence. -/
def splitLinesLoop : List (List Char) → List (List Char) → List (List Char) × List (List Char)
  | [], cur => ([], cur)
  | line :: ls, cur =>
    if pyStrip line = [] then
      if cur ≠ [] then
        let p := splitLinesLoop ls []
        (joinSpace cur :: p.1, p.2)
      else splitLinesLoop ls cur
    else
      let q := splitWords (pySplitWS (pyStrip line)) cur
      let p := splitLinesLoop ls q.2
      (q.1 ++ p.1, p.2)

/-- `processor.TextProcessor.split_into_sentences` (lines 85-117). -/
def split_into_sentences (text : List Char) : List (List Char) :=
  let p := splitLinesLoop (splitOn '\n' text) []
  let all := if p.2 ≠ [] then p.1 ++ [joinSpace p.2] else p.1
  (all.map pyStrip).filter (· ≠ [])

end Processor

namespace TextSummarizer

/-- `text_summarizer.TextSummarizer._score_sentences` (lines 65-95): word
frequency over all sentences, early/late position bonus, medium-length bonus.
Float constants are modelled as the exact rationals they denote in source
text. -/
def score_sentences (sentences : List (List Char)) : List ℚ :=
  let allWords := pySplitWS (lowerL (joinSpace sentences))
  (List.enum sentences).map (fun p =>
    let words := pySplitWS (lowerL p.2)
    let wordScore : ℚ :=
      if words = [] then 0
      else ((words.map (fun w => (allWords.count w : ℚ))).sum) / words.length
    wordScore * (1/2)
    + (if (p.1 : ℚ) < (sentences.length : ℚ) * (1/5) then 3/10
       else if (p.1 : ℚ) > (sentences.length : ℚ) * (4/5) then 1/5 else 0)
    + (if 10 ≤ words.length ∧ words.length ≤ 30 then 1/5 else 0))

/-- The selection core of `text_summarizer.TextSummarizer.summarize` (lines
44-58): compute the sentence budget, rank by score descending (stable), take
the top slice, and re-sort the selected indices ascending. -/
def selected_indices (sentences : List (List Char)) (ratio : ℚ) (min_sentences : ℤ) :
    List Nat :=
  let scored := score_sentences sentences
  let num : ℤ :=
    min (sentences.length : ℤ)
      (max min_sentences (pyRound ((sentences.length : ℚ) * ratio)))
  List.insertionSort (· ≤ ·)
    ((pySliceTo num (List.insertionSort descScore (List.enum scored))).map Prod.fst)

/-- `summary + ('.' if not summary.endswith('.') else '')`. -/
def addFinalPeriod (summary : List Char) : List Char :=
  if summary.getLast? = some '.' then summary else summary ++ ['.']

/-- `text_summarizer.TextSummarizer.summarize` (lines 15-63). -/
def summarize (text : List Char) (ratio : ℚ) (min_sentences : ℤ) : List Char :=
  if text = [] then []
  else
    let cleaned := TextProcessor.clean text
    let sentences := TextProcessor.split_into_sentences cleaned
    if sentences = [] then []
    else
      addFinalPeriod (joinDotSpace
        ((selected_indices sentences ratio min_sentences).map
          (fun i => sentences.getD i [])))

/-- Result record of `get_summary_stats` (both summarizer variants share this
shape). -/
structure SummaryStats where
  original_length : Nat
  summary_length : Nat
  compression_ratio : ℚ
  original_reading_time : ℤ
  summary_reading_time : ℤ
  deriving Repr

/-- `text_summarizer.TextSummarizer.get_summary_stats` (lines 97-122). -/
def get_summary_stats (original summary : List Char) : SummaryStats :=
  let o := TextProcessor.get_text_stats original
  let s := TextProcessor.get_text_stats summary
  { original_length := o.num_words
    summary_length := s.num_words
    compression_ratio :=
      if 0 < o.num_words then (s.num_words : ℚ) / o.num_words else 0
    original_reading_time := o.reading_time
    summary_reading_time := s.reading_time }

end TextSummarizer

namespace ArticleSummarizer

/-- `summarizer.ArticleSummarizer._calculate_word_freq` (lines 55-62); the
nltk English stopword set is the external parameter `stop`. -/
def calculate_word_freq (stop : List Char → Bool) (text : List Char) : List (List Char) :=
  (pySplitWS (lowerL text)).filter (fun w => isAlnumWord w && !stop w)

/-- `summarizer.ArticleSummarizer._score_sentence` (lines 64-68). -/
def score_sentence (freqWords : List (List Char)) (sentence : List Char) : ℚ :=
  let words := pySplitWS (lowerL sentence)
  let s : ℚ :=
    ((words.filter isAlnumWord).map (fun w => (freqWords.count w : ℚ))).sum
  if words = [] then 0 else s / words.length

/-- The sentence budget of `_extractive_summarize` in its ratio branch
(line 158), of `_gensim_summarize` (line 111) and of `_fallback_summarize`
(line 238). -/
def ratio_num_sentences (n : Nat) (ratio : ℚ) : ℤ :=
  max 1 (pyRound ((n : ℚ) * ratio))

/-- `summarizer.ArticleSummarizer._fallback_summarize` (lines 223-239): the
positional fallback keeps the first `max 1 (round (n * ratio))` sentences in
source order. -/
def fallback_summarize (text : List Char) (ratio : ℚ) : List Char :=
  let sentences := Processor.split_into_sentences text
  if sentences = [] then []
  else joinSpace (pySliceTo (ratio_num_sentences sentences.length ratio) sentences)

/-- `summarizer.ArticleSummarizer._gensim_summarize` (lines 70-124), minus
its internal try/except, which can only be triggered by the external nltk
collaborator and is modelled by the caller-level fallback. -/
def gensim_summarize (stop : List Char → Bool) (text : List Char) (ratio : ℚ)
    (word_count : Option ℤ) : List Char :=
  let sentences := Processor.split_into_sentences text
  if sentences = [] then []
  else
    let freqWords := calculate_word_freq stop text
    let scored := sentences.map (fun s => (s, score_sentence freqWords s))
    let ranked := List.insertionSort descScore scored
    let num : ℤ :=
      match word_count with
      | some wc =>
        if wc ≠ 0 then
          min (sentences.length : ℤ)
            (pyRound ((wc : ℚ) /
              (((pySplitWS text).length : ℚ) / (sentences.length : ℚ))))
        else ratio_num_sentences sentences.length ratio
      | none => ratio_num_sentences sentences.length ratio
    let selected := List.insertionSort (· ≤ ·)
      ((pySliceTo num ranked).map (fun p => sentences.findIdx (· == p.1)))
    let summary := joinSpace (selected.map (fun i => sentences.getD i []))
    if summary ≠ [] then summary else fallback_summarize text ratio

/-- `summarizer.ArticleSummarizer._score_sentences` (lines 167-196);
`extract_keywords` needs the nltk tokenizer, abstracted as `keywords`. -/
def score_sentences_art (keywords : List Char → Nat) (sentences : List (List Char)) :
    List (Nat × ℚ) :=
  (List.enum sentences).map (fun p =>
    let words := (pySplitWS p.2).length
    let s1 : ℚ := if 5 ≤ words ∧ words ≤ 25 then 3/10 else 0
    let s2 : ℚ :=
      if (p.1 : ℚ) < (sentences.length : ℚ) * (1/5)
        ∨ (p.1 : ℚ) > (sentences.length : ℚ) * (4/5) then 3/10 else 0
    (p.1, s1 + s2 + (keywords p.2 : ℚ) * (1/10)))

/-- Index selection of `summarizer.ArticleSummarizer._select_sentences`
(lines 213-218): rank the scored pairs by score descending (stable), take
the top slice, re-sort the surviving indices ascending. -/
def select_indices (scored : List (Nat × ℚ)) (num : ℤ) : List Nat :=
  List.insertionSort (· ≤ ·)
    ((pySliceTo num (List.insertionSort descScore scored)).map Prod.fst)

/-- `summarizer.ArticleSummarizer._select_sentences` (lines 198-221). -/
def select_sentences (sentences : List (List Char)) (scored : List (Nat × ℚ))
    (num : ℤ) : List (List Char) :=
  (select_indices scored num).map (fun i => sentences.getD i [])

/-- `summarizer.ArticleSummarizer.summarize` (lines 17-53).  The body of the
try block (method dispatch, lines 43-49) is abstracted as `run`, an
`Except`-valued function: `.error` models a raised exception, in which case
the source's `except` clause answers with the positional fallback on the
cleaned text.  An empty input raises `ValueError` before anything else. -/
def summarize (run : List Char → ℚ → Except String (List Char))
    (text : List Char) (ratio : ℚ) : Except String (List Char) :=
  if text = [] then Except.error "Empty text provided for summarization"
  else
    let cleaned := Processor.clean text
    match run cleaned ratio with
    | Except.ok s => Except.ok s
    | Except.error _ => Except.ok (fallback_summarize cleaned ratio)

/-- The `method='gensim'` dispatch (the default): `_gensim_summarize` catches
its own exceptions, so it never raises into `summarize`. -/
def gensim_run (stop : List Char → Bool) (word_count : Option ℤ) :
    List Char → ℚ → Except String (List Char) :=
  fun text ratio => Except.ok (gensim_summarize stop text ratio word_count)

/-- `summarizer.ArticleSummarizer.get_summary_stats` (lines 241-266), with
word counts modelled by whitespace splitting (the nltk tokenizer applied to
space-separated prose). -/
def get_summary_stats (original summary : List Char) : TextSummarizer.SummaryStats :=
  TextSummarizer.get_summary_stats original summary

end ArticleSummarizer

/-- No two adjacent whitespace characters. -/
def NoTwoWS (l : List Char) : Prop :=
  l.Chain' (fun a b => ¬(isPySpace a = true ∧ isPySpace b = true))

/-- A character that survives cleaning unchanged: kept by the special-character
filter, fixed by lower-casing, and equal to a plain space if whitespace. -/
def GoodChar (c : Char) : Prop :=
  Kept c = true ∧ lowerChar c = c ∧ (isPySpace c = true → c = ' ')

/-- Texts on which one cleaning pass is the identity. -/
def CleanNormal (l : List Char) : Prop :=
  (∀ c ∈ l, GoodChar c) ∧ NoTwoWS l ∧ pyStrip l = l

/-! ### Basic character and list lemmas -/

theorem lowerChar_snd_fix : ∀ p ∈ upperLower, lowerChar p.2 = p.2 := by decide

theorem lowerChar_idem (c : Char) : lowerChar (lowerChar c) = lowerChar c := by
  rcases h : upperLower.find? (fun p => p.1 = c) with _ | p
  · simp [lowerChar, h]
  · have hm : p ∈ upperLower := List.mem_of_find?_eq_some h
    have he : lowerChar c = p.2 := by simp [lowerChar, h]
    rw [he]
    exact lowerChar_snd_fix p hm

theorem isPySpace_cases {c : Char} (h : isPySpace c = true) :
    c = ' ' ∨ c = '\t' ∨ c = '\n' ∨ c = '\r' ∨ c = '\x0b' ∨ c = '\x0c' := by
  simp only [isPySpace, Bool.or_eq_true, decide_eq_true_eq] at h
  tauto

theorem lowerChar_of_pySpace {c : Char} (h : isPySpace c = true) : lowerChar c = c := by
  rcases isPySpace_cases h with rfl | rfl | rfl | rfl | rfl | rfl <;> decide

theorem lowerL_fix {l : List Char} (h : ∀ c ∈ l, lowerChar c = c) : lowerL l = l := by
  unfold lowerL
  have := List.map_congr_left (g := id) (l := l) (by simpa using h)
  simpa using this

theorem mem_lowerL_fix {l : List Char} {c : Char} (h : c ∈ lowerL l) :
    lowerChar c = c := by
  unfold lowerL at h
  rcases List.mem_map.1 h with ⟨a, _, rfl⟩
  exact lowerChar_idem a

/-! ### replaceAll lemmas -/

theorem replaceAllGo_not_mem {p : Char} {ps rep : List Char} :
    ∀ (fuel : Nat) (l : List Char), p ∉ l → replaceAllGo (p :: ps) rep fuel l = l := by
  intro fuel
  induction fuel with
  | zero => intro l _; cases l <;> rfl
  | succ n ih =>
    intro l hl
    cases l with
    | nil => rfl
    | cons c rest =>
      have hpc : ¬ (p :: ps).isPrefixOf (c :: rest) = true := by
        intro hpre
        simp only [List.isPrefixOf, Bool.and_eq_true, beq_iff_eq] at hpre
        exact hl (hpre.1 ▸ List.mem_cons_self c rest)
      simp only [replaceAllGo, hpc, Bool.false_eq_true, if_false]
      rw [ih rest (fun hm => hl (List.mem_cons_of_mem c hm))]

theorem replaceAll_not_mem {p : Char} {ps rep l : List Char} (h : p ∉ l) :
    replaceAll (p :: ps) rep l = l :=
  replaceAllGo_not_mem l.length l h

theorem mem_replaceAllGo {pat rep : List Char} {c : Char} :
    ∀ (fuel : Nat) (l : List Char), c ∈ replaceAllGo pat rep fuel l → c ∈ l ∨ c ∈ rep := by
  intro fuel
  induction fuel with
  | zero => intro l h; cases l <;> simp_all [replaceAllGo]
  | succ n ih =>
    intro l h
    cases l with
    | nil => simp [replaceAllGo] at h
    | cons a rest =>
      by_cases hpre : pat.isPrefixOf (a :: rest) = true
      · simp only [replaceAllGo, hpre, if_true, List.mem_append] at h
        rcases h with h | h
        · exact Or.inr h
        · rcases ih (List.drop pat.length (a :: rest)) h with h1 | h1
          · exact Or.inl (List.drop_subset _ _ h1)
          · exact Or.inr h1
      · simp only [replaceAllGo, hpre, Bool.false_eq_true, if_false, List.mem_cons] at h
        rcases h with rfl | h
        · exact Or.inl (List.mem_cons_self _ _)
        · rcases ih rest h with h1 | h1
          · exact Or.inl (List.mem_cons_of_mem _ h1)
          · exact Or.inr h1

theorem mem_replaceAll {pat rep l : List Char} {c : Char} (h : c ∈ replaceAll pat rep l) :
    c ∈ l ∨ c ∈ rep :=
  mem_replaceAllGo l.length l h

theorem entitySub_not_mem {l : List Char} (hamp : '&' ∉ l) (hlt : '<' ∉ l)
    (hgt : '>' ∉ l) : entitySub l = l := by
  unfold entitySub
  rw [replaceAll_not_mem hamp, replaceAll_not_mem hamp, replaceAll_not_mem hlt,
    replaceAll_not_mem hgt]

theorem mem_entitySub {l : List Char} {c : Char} (h : c ∈ entitySub l) :
    c ∈ l ∨ c = ' ' ∨ c = '&' ∨ c = '<' ∨ c = '>' := by
  unfold entitySub at h
  rcases mem_replaceAll h with h | h
  · rcases mem_replaceAll h with h | h
    · rcases mem_replaceAll h with h | h
      · rcases mem_replaceAll h with h | h
        · exact Or.inl h
        · simp_all
      · simp_all
    · simp_all
  · simp_all

/-! ### Tag-removal lemmas -/

theorem removeTagsGo_not_mem :
    ∀ (fuel : Nat) (l : List Char), '<' ∉ l → removeTagsGo fuel l = l := by
  intro fuel
  induction fuel with
  | zero => intro l _; cases l <;> rfl
  | succ n ih =>
    intro l hl
    cases l with
    | nil => rfl
    | cons c rest =>
      have hc : ¬ c = '<' := fun h => hl (h ▸ List.mem_cons_self c rest)
      simp only [removeTagsGo, hc, if_false]
      rw [ih rest (fun hm => hl (List.mem_cons_of_mem c hm))]

theorem removeTags_not_mem {l : List Char} (h : '<' ∉ l) : removeTags l = l :=
  removeTagsGo_not_mem l.length l h

theorem removeTagsGo_sublist :
    ∀ (fuel : Nat) (l : List Char), List.Sublist (removeTagsGo fuel l) l := by
  intro fuel
  induction fuel with
  | zero => intro l; cases l <;> simp [removeTagsGo]
  | succ n ih =>
    intro l
    cases l with
    | nil => simp [removeTagsGo]
    | cons c rest =>
      by_cases hc : c = '<'
      · subst hc
        simp only [removeTagsGo, if_true]
        split
        · exact ((ih _).trans (List.drop_sublist _ _)).trans (List.sublist_cons_self _ _)
        · exact (ih rest).cons₂ _
      · simp only [removeTagsGo, hc, if_false]
        exact (ih rest).cons₂ _

theorem procRemoveTagsGo_not_mem :
    ∀ (fuel : Nat) (l : List Char), '<' ∉ l → procRemoveTagsGo fuel l = l := by
  intro fuel
  induction fuel with
  | zero => intro l _; cases l <;> rfl
  | succ n ih =>
    intro l hl
    cases l with
    | nil => rfl
    | cons c rest =>
      have hc : ¬ c = '<' := fun h => hl (h ▸ List.mem_cons_self c rest)
      simp only [procRemoveTagsGo, hc, if_false]
      rw [ih rest (fun hm => hl (List.mem_cons_of_mem c hm))]

theorem procRemoveTags_not_mem {l : List Char} (h : '<' ∉ l) : procRemoveTags l = l :=
  procRemoveTagsGo_not_mem l.length l h

theorem procRemoveTagsGo_sublist :
    ∀ (fuel : Nat) (l : List Char), List.Sublist (procRemoveTagsGo fuel l) l := by
  intro fuel
  induction fuel with
  | zero => intro l; cases l <;> simp [procRemoveTagsGo]
  | succ n ih =>
    intro l
    cases l with
    | nil => simp [procRemoveTagsGo]
    | cons c rest =>
      by_cases hc : c = '<'
      · subst hc
        simp only [procRemoveTagsGo, if_true]
        split
        · exact ((ih _).trans (List.drop_sublist _ _)).trans (List.sublist_cons_self _ _)
        · exact (ih rest).cons₂ _
      · simp only [procRemoveTagsGo, hc, if_false]
        exact (ih rest).cons₂ _

theorem normalizeParagraphsGo_not_mem :
    ∀ (fuel : Nat) (l : List Char), '\n' ∉ l → normalizeParagraphsGo fuel l = l := by
  intro fuel
  induction fuel with
  | zero => intro l _; cases l <;> rfl
  | succ n ih =>
    intro l hl
    cases l with
    | nil => rfl
    | cons c rest =>
      have hc : ¬ c = '\n' := fun h => hl (h ▸ List.mem_cons_self c rest)
      simp only [normalizeParagraphsGo, hc, if_false]
      rw [ih rest (fun hm => hl (List.mem_cons_of_mem c hm))]

theorem normalizeParagraphs_not_mem {l : List Char} (h : '\n' ∉ l) :
    normalizeParagraphs l = l :=
  normalizeParagraphsGo_not_mem l.length l h

/-! ### Whitespace-collapsing lemmas -/

theorem mem_collapseWS {c : Char} : ∀ {l : List Char}, c ∈ collapseWS l → c ∈ l ∨ c = ' ' := by
  intro l
  induction l using collapseWS.induct with
  | case1 => simp [collapseWS]
  | case2 c' =>
    intro h
    simp only [collapseWS, List.mem_singleton] at h
    split at h <;> simp_all
  | case3 c' d rest h ih =>
    intro hm
    rw [collapseWS, if_pos h] at hm
    rcases ih hm with h1 | h1
    · exact Or.inl (List.mem_cons_of_mem _ h1)
    · exact Or.inr h1
  | case4 c' d rest h ih =>
    intro hm
    rw [collapseWS, if_neg h] at hm
    rcases List.mem_cons.1 hm with h1 | h1
    · subst h1
      split <;> simp_all
    · rcases ih h1 with h2 | h2
      · exact Or.inl (List.mem_cons_of_mem _ h2)
      · exact Or.inr h2

theorem ws_mem_collapseWS {c : Char} (hc : isPySpace c = true) :
    ∀ {l : List Char}, c ∈ collapseWS l → c = ' ' := by
  intro l
  induction l using collapseWS.induct with
  | case1 => simp [collapseWS]
  | case2 c' =>
    intro h
    simp only [collapseWS, List.mem_singleton] at h
    by_cases hw : isPySpace c' = true
    · simpa [hw] using h
    · rw [if_neg (by simp [hw])] at h
      subst h
      exact absurd hc (by simp [hw])
  | case3 c' d rest h ih =>
    intro hm
    rw [collapseWS, if_pos h] at hm
    exact ih hm
  | case4 c' d rest h ih =>
    intro hm
    rw [collapseWS, if_neg h] at hm
    rcases List.mem_cons.1 hm with h1 | h1
    · by_cases hw : isPySpace c' = true
      · simpa [hw] using h1
      · rw [if_neg (by simp [hw])] at h1
        subst h1
        exact absurd hc (by simp [hw])
    · exact ih h1

theorem collapseWS_all_space :
    ∀ l : List Char, l ≠ [] → (∀ c ∈ l, isPySpace c = true) → collapseWS l = [' '] := by
  intro l
  induction l using collapseWS.induct with
  | case1 => intro h; exact absurd rfl h
  | case2 c' =>
    intro _ hall
    simp [collapseWS, hall c' (List.mem_singleton_self c')]
  | case3 c' d rest h ih =>
    intro _ hall
    rw [collapseWS, if_pos h]
    exact ih (by simp) (fun x hx => hall x (List.mem_cons_of_mem _ hx))
  | case4 c' d rest h ih =>
    intro _ hall
    exact absurd (by
      simp [hall c' (List.mem_cons_self _ _),
        hall d (List.mem_cons_of_mem _ (List.mem_cons_self _ _))]) h

theorem collapseWS_head?_of_not_ws {d : Char} {rest : List Char}
    (hd : isPySpace d = false) : (collapseWS (d :: rest)).head? = some d := by
  cases rest with
  | nil => simp [collapseWS, hd]
  | cons e t =>
    rw [collapseWS, if_neg (by simp [hd])]
    simp [hd]

theorem collapseWS_noTwo : ∀ l : List Char, NoTwoWS (collapseWS l) := by
  intro l
  induction l using collapseWS.induct with
  | case1 => simp [collapseWS, NoTwoWS]
  | case2 c' => simp [collapseWS, NoTwoWS]
  | case3 c' d rest h ih =>
    rw [collapseWS, if_pos h]
    exact ih
  | case4 c' d rest h ih =>
    rw [collapseWS, if_neg h]
    refine List.chain'_cons'.2 ⟨?_, ih⟩
    intro b hb
    by_cases hd : isPySpace d = true
    · have hcf : isPySpace c' = false := by
        cases hcw : isPySpace c' with
        | false => rfl
        | true => exact absurd (by simp [hcw, hd]) h
      rw [if_neg (by simp [hcf])]
      intro hcon
      rw [hcf] at hcon
      exact Bool.false_ne_true hcon.1
    · have hdf : isPySpace d = false := by
        cases hdw : isPySpace d with
        | false => rfl
        | true => exact absurd hdw hd
      rw [collapseWS_head?_of_not_ws hdf] at hb
      have hbd : b = d := (by simpa using hb : d = b).symm
      subst hbd
      intro hcon
      rw [hdf] at hcon
      exact Bool.false_ne_true hcon.2

theorem collapseWS_fix :
    ∀ l : List Char, (∀ c ∈ l, isPySpace c = true → c = ' ') → NoTwoWS l →
      collapseWS l = l := by
  intro l
  induction l using collapseWS.induct with
  | case1 => intro _ _; rfl
  | case2 c' =>
    intro hall _
    by_cases hw : isPySpace c' = true
    · have hc := hall c' (List.mem_singleton_self c') hw
      simp [collapseWS, hw, hc]
    · simp [collapseWS, hw]
  | case3 c' d rest h ih =>
    intro hall hchain
    have h1 := (List.chain'_cons.1 hchain).1
    simp only [Bool.and_eq_true] at h
    exact absurd ⟨h.1, h.2⟩ h1
  | case4 c' d rest h ih =>
    intro hall hchain
    rw [collapseWS, if_neg h]
    have hc' : (if isPySpace c' then ' ' else c') = c' := by
      by_cases hw : isPySpace c' = true
      · have hcs := hall c' (List.mem_cons_self _ _) hw
        simp [hw, hcs]
      · simp [hw]
    rw [hc', ih (fun x hx hwx => hall x (List.mem_cons_of_mem _ hx) hwx) hchain.tail]

/-! ### Stripping lemmas -/

theorem dropWhile_head?_false {p : Char → Bool} {c : Char} :
    ∀ {l : List Char}, (l.dropWhile p).head? = some c → p c = false := by
  intro l
  induction l with
  | nil => intro h; simp [List.dropWhile] at h
  | cons a t ih =>
    intro h
    rw [List.dropWhile_cons] at h
    by_cases hp : p a = true
    · rw [if_pos hp] at h
      exact ih h
    · rw [if_neg hp] at h
      have : c = a := by simpa using h.symm
      subst this
      exact Bool.not_eq_true _ ▸ hp

theorem dropWhile_eq_self_of_head {p : Char → Bool} {l : List Char}
    (h : ∀ c, l.head? = some c → p c = false) : l.dropWhile p = l := by
  cases l with
  | nil => rfl
  | cons a t => rw [List.dropWhile_cons, h a rfl]; simp

theorem dropWhile_idem (p : Char → Bool) (l : List Char) :
    (l.dropWhile p).dropWhile p = l.dropWhile p :=
  dropWhile_eq_self_of_head (fun _ hc => dropWhile_head?_false hc)

theorem pre_head?_eq {l₁ l₂ : List Char} (h : l₁ <+: l₂) (hne : l₁ ≠ []) :
    l₁.head? = l₂.head? := by
  obtain ⟨t, rfl⟩ := h
  cases l₁ with
  | nil => exact absurd rfl hne
  | cons a l => rfl

theorem pyStrip_pre_dropWhile (l : List Char) :
    pyStrip l <+: l.dropWhile isPySpace := by
  obtain ⟨t, ht⟩ : (l.dropWhile isPySpace).reverse.dropWhile isPySpace <:+
      (l.dropWhile isPySpace).reverse := List.dropWhile_suffix _
  refine ⟨t.reverse, ?_⟩
  show ((l.dropWhile isPySpace).reverse.dropWhile isPySpace).reverse ++ t.reverse
      = l.dropWhile isPySpace
  rw [← List.reverse_append, ht, List.reverse_reverse]

theorem pyStrip_subset {l : List Char} {c : Char} (h : c ∈ pyStrip l) : c ∈ l :=
  (List.dropWhile_suffix isPySpace).subset ((pyStrip_pre_dropWhile l).subset h)

theorem pyStrip_head?_false {l : List Char} {c : Char}
    (h : (pyStrip l).head? = some c) : isPySpace c = false := by
  have hne : pyStrip l ≠ [] := by
    intro hnil
    rw [hnil] at h
    simp at h
  have heq := pre_head?_eq (pyStrip_pre_dropWhile l) hne
  exact dropWhile_head?_false (heq ▸ h)

theorem pyStrip_idem (l : List Char) : pyStrip (pyStrip l) = pyStrip l := by
  have h1 : (pyStrip l).dropWhile isPySpace = pyStrip l :=
    dropWhile_eq_self_of_head (fun _ hc => pyStrip_head?_false hc)
  have hrev : (pyStrip l).reverse = (l.dropWhile isPySpace).reverse.dropWhile isPySpace := by
    unfold pyStrip
    rw [List.reverse_reverse]
  show (((pyStrip l).dropWhile isPySpace).reverse.dropWhile isPySpace).reverse = pyStrip l
  rw [h1, hrev, dropWhile_idem]
  rfl

theorem chain'_of_pre {R : Char → Char → Prop} {l₁ l₂ : List Char}
    (h : List.Chain' R l₂) (hp : l₁ <+: l₂) : List.Chain' R l₁ := by
  obtain ⟨t, rfl⟩ := hp
  exact (List.chain'_append.1 h).1

theorem pyStrip_noTwo {l : List Char} (h : NoTwoWS l) : NoTwoWS (pyStrip l) :=
  chain'_of_pre (h.suffix (List.dropWhile_suffix _)) (pyStrip_pre_dropWhile l)

/-! ### Join lemmas -/

theorem joinSep_ne_nil {sep : List Char} {s : List Char} {rest : List (List Char)}
    (hs : s ≠ []) : joinSep sep (s :: rest) ≠ [] := by
  cases rest with
  | nil => simpa [joinSep] using hs
  | cons t ts => simp [joinSep, hs]

/-! ### Rounding lemmas -/

theorem ratFloor_eq_floor (q : ℚ) : Rat.floor q = ⌊q⌋ :=
  (Rat.floor_def' q).trans Rat.floor_def.symm

theorem pyRound_floor_le (q : ℚ) : ⌊q⌋ ≤ pyRound q := by
  unfold pyRound
  rw [ratFloor_eq_floor]
  split_ifs <;> omega

theorem pyRound_le_floor_add_one (q : ℚ) : pyRound q ≤ ⌊q⌋ + 1 := by
  unfold pyRound
  rw [ratFloor_eq_floor]
  split_ifs <;> omega

theorem pyRound_mono {a b : ℚ} (h : a ≤ b) : pyRound a ≤ pyRound b := by
  have hf : ⌊a⌋ ≤ ⌊b⌋ := Int.floor_mono h
  rcases lt_or_eq_of_le hf with hlt | heq
  · calc pyRound a ≤ ⌊a⌋ + 1 := pyRound_le_floor_add_one a
      _ ≤ ⌊b⌋ := by omega
      _ ≤ pyRound b := pyRound_floor_le b
  · have hfr : a - (⌊a⌋ : ℚ) ≤ b - (⌊b⌋ : ℚ) := by
      rw [← heq]
      exact sub_le_sub_right h _
    unfold pyRound
    rw [ratFloor_eq_floor, ratFloor_eq_floor, ← heq]
    rw [← heq] at hfr
    split_ifs <;> first | omega | linarith

theorem pyRound_intCast (z : ℤ) : pyRound (z : ℚ) = z := by
  unfold pyRound
  rw [ratFloor_eq_floor, Int.floor_intCast, sub_self]
  rw [if_pos (by norm_num : (0 : ℚ) < 1/2)]

/-! ### Slice, sort and selection lemmas -/

theorem pySliceTo_of_nonneg {k : ℤ} (h : 0 ≤ k) (l : List α) :
    pySliceTo k l = l.take k.toNat := by
  simp [pySliceTo, h]

theorem length_pySliceTo_of_nonneg {k : ℤ} (h : 0 ≤ k) (l : List α) :
    (pySliceTo k l).length = min k.toNat l.length := by
  rw [pySliceTo_of_nonneg h, List.length_take]

theorem map_getD_range {α : Type} (l : List α) (d : α) :
    (List.range l.length).map (fun i => l.getD i d) = l := by
  induction l with
  | nil => rfl
  | cons a t ih =>
    rw [List.length_cons, List.range_succ_eq_map, List.map_cons]
    simp only [List.getD_cons_zero, List.map_map]
    have hmap : (List.map ((fun i => (a :: t).getD i d) ∘ Nat.succ) (List.range t.length))
        = List.map (fun i => t.getD i d) (List.range t.length) := by
      apply List.map_congr_left
      intro i _
      simp [List.getD_cons_succ]
    rw [hmap, ih]

theorem length_score_sentences (s : List (List Char)) :
    (TextSummarizer.score_sentences s).length = s.length := by
  unfold TextSummarizer.score_sentences
  rw [List.length_map, List.enum_length]

theorem sorted_selected_indices (s : List (List Char)) (ratio : ℚ) (m : ℤ) :
    List.Sorted (· ≤ ·) (TextSummarizer.selected_indices s ratio m) := by
  simp only [TextSummarizer.selected_indices]
  exact List.sorted_insertionSort _ _

theorem sorted_select_indices (scored : List (Nat × ℚ)) (num : ℤ) :
    List.Sorted (· ≤ ·) (ArticleSummarizer.select_indices scored num) := by
  simp only [ArticleSummarizer.select_indices]
  exact List.sorted_insertionSort _ _

theorem length_select_indices {num : ℤ} (h : 0 ≤ num) (scored : List (Nat × ℚ)) :
    (ArticleSummarizer.select_indices scored num).length = min num.toNat scored.length := by
  simp only [ArticleSummarizer.select_indices]
  rw [List.length_insertionSort, List.length_map, length_pySliceTo_of_nonneg h,
    List.length_insertionSort]

theorem length_selected_indices (s : List (List Char)) (ratio : ℚ) {m : ℤ} (hm : 0 ≤ m) :
    (TextSummarizer.selected_indices s ratio m).length
      = (min (s.length : ℤ) (max m (pyRound ((s.length : ℚ) * ratio)))).toNat := by
  simp only [TextSummarizer.selected_indices]
  have hmax : m ≤ max m (pyRound ((s.length : ℚ) * ratio)) := le_max_left _ _
  have hn : (0 : ℤ) ≤ (s.length : ℤ) := Int.ofNat_nonneg _
  have h0 : 0 ≤ min (s.length : ℤ) (max m (pyRound ((s.length : ℚ) * ratio))) := by omega
  have h1 : min (s.length : ℤ) (max m (pyRound ((s.length : ℚ) * ratio))) ≤ (s.length : ℤ) :=
    min_le_left _ _
  rw [List.length_insertionSort, List.length_map, length_pySliceTo_of_nonneg h0,
    List.length_insertionSort, List.enum_length, length_score_sentences]
  omega

theorem selected_indices_all (s : List (List Char)) (ratio : ℚ) {m : ℤ}
    (hm : (s.length : ℤ) ≤ m) :
    TextSummarizer.selected_indices s ratio m = List.range s.length := by
  simp only [TextSummarizer.selected_indices]
  have hnum : min (s.length : ℤ) (max m (pyRound ((s.length : ℚ) * ratio)))
      = (s.length : ℤ) := by
    have := le_max_left m (pyRound ((s.length : ℚ) * ratio))
    omega
  rw [hnum]
  have hlen : (List.insertionSort descScore
      (List.enum (TextSummarizer.score_sentences s))).length = s.length := by
    rw [List.length_insertionSort, List.enum_length, length_score_sentences]
  have htn : ((s.length : ℤ)).toNat = s.length := by omega
  have hslice : pySliceTo (s.length : ℤ)
      (List.insertionSort descScore (List.enum (TextSummarizer.score_sentences s)))
      = List.insertionSort descScore (List.enum (TextSummarizer.score_sentences s)) := by
    rw [pySliceTo_of_nonneg (Int.ofNat_nonneg _), htn, ← hlen, List.take_length]
  rw [hslice]
  have hperm : ((List.insertionSort descScore
      (List.enum (TextSummarizer.score_sentences s))).map Prod.fst).Perm
        (List.range s.length) := by
    have h1 := (List.perm_insertionSort descScore
      (List.enum (TextSummarizer.score_sentences s))).map Prod.fst
    rw [List.enum_map_fst, length_score_sentences] at h1
    exact h1
  exact @List.eq_of_perm_of_sorted Nat (· ≤ ·) _ _ _
    ((List.perm_insertionSort _ _).trans hperm)
    (List.sorted_insertionSort _ _)
    ((List.sorted_lt_range _).imp le_of_lt)

theorem split_clean_nil :
    TextProcessor.split_into_sentences (TextProcessor.clean []) = [] := rfl

theorem summarize_all {text : List Char} (ratio : ℚ) {m : ℤ}
    (hne : TextProcessor.split_into_sentences (TextProcessor.clean text) ≠ [])
    (hm : ((TextProcessor.split_into_sentences (TextProcessor.clean text)).length : ℤ) ≤ m) :
    TextSummarizer.summarize text ratio m
      = TextSummarizer.addFinalPeriod
          (joinDotSpace (TextProcessor.split_into_sentences (TextProcessor.clean text))) := by
  have htext : text ≠ [] := by
    intro h
    exact hne (h ▸ split_clean_nil)
  simp only [TextSummarizer.summarize, if_neg htext, if_neg hne]
  rw [selected_indices_all _ ratio hm, map_getD_range]

/-! ### Whitespace-only inputs -/

theorem clean_all_space {l : List Char} (h : ∀ c ∈ l, isPySpace c = true) :
    TextProcessor.clean l = [] := by
  by_cases hl : l = []
  · subst hl; rfl
  · unfold TextProcessor.clean
    rw [if_neg hl]
    rw [lowerL_fix (fun c hc => lowerChar_of_pySpace (h c hc))]
    rw [removeTags_not_mem (fun hm => absurd (h '<' hm) (by decide))]
    rw [entitySub_not_mem (fun hm => absurd (h '&' hm) (by decide))
      (fun hm => absurd (h '<' hm) (by decide))
      (fun hm => absurd (h '>' hm) (by decide))]
    rw [collapseWS_all_space l hl h]
    rfl

theorem proc_clean_all_space {l : List Char} (h : ∀ c ∈ l, isPySpace c = true) :
    Processor.clean l = [] := by
  by_cases hl : l = []
  · subst hl; rfl
  · unfold Processor.clean
    rw [if_neg hl]
    rw [lowerL_fix (fun c hc => lowerChar_of_pySpace (h c hc))]
    rw [procRemoveTags_not_mem (fun hm => absurd (h '<' hm) (by decide))]
    rw [entitySub_not_mem (fun hm => absurd (h '&' hm) (by decide))
      (fun hm => absurd (h '<' hm) (by decide))
      (fun hm => absurd (h '>' hm) (by decide))]
    rw [collapseWS_all_space l hl h]
    rfl

theorem summarize_empty (ratio : ℚ) (m : ℤ) :
    TextSummarizer.summarize [] ratio m = [] := rfl

theorem summarize_all_space {text : List Char} (ratio : ℚ) (m : ℤ)
    (h : ∀ c ∈ text, isPySpace c = true) :
    TextSummarizer.summarize text ratio m = [] := by
  by_cases ht : text = []
  · subst ht; rfl
  · have hs : TextProcessor.split_into_sentences (TextProcessor.clean text) = [] := by
      rw [clean_all_space h]
      rfl
    simp only [TextSummarizer.summarize, if_neg ht, hs, if_pos]

theorem gensim_nil (stop : List Char → Bool) (ratio : ℚ) (wc : Option ℤ) :
    ArticleSummarizer.gensim_summarize stop [] ratio wc = [] := rfl

theorem article_summarize_empty (run : List Char → ℚ → Except String (List Char))
    (ratio : ℚ) :
    ArticleSummarizer.summarize run [] ratio
      = Except.error "Empty text provided for summarization" := rfl

theorem article_summarize_all_space (stop : List Char → Bool) (wc : Option ℤ)
    {text : List Char} (ratio : ℚ) (ht : text ≠ [])
    (h : ∀ c ∈ text, isPySpace c = true) :
    ArticleSummarizer.summarize (ArticleSummarizer.gensim_run stop wc) text ratio
      = Except.ok [] := by
  simp only [ArticleSummarizer.summarize, if_neg ht, ArticleSummarizer.gensim_run]
  rw [proc_clean_all_space h, gensim_nil]

/-! ### Fallback lemmas -/

theorem ratio_num_sentences_pos (n : Nat) (ratio : ℚ) :
    1 ≤ ArticleSummarizer.ratio_num_sentences n ratio :=
  le_max_left _ _

theorem proc_split_sentences_ne_nil {text : List Char} {s : List Char}
    (h : s ∈ Processor.split_into_sentences text) : s ≠ [] := by
  unfold Processor.split_into_sentences at h
  have := List.of_mem_filter h
  simpa using this

theorem fallback_eq_take {text : List Char} (ratio : ℚ)
    (hne : Processor.split_into_sentences text ≠ []) :
    ArticleSummarizer.fallback_summarize text ratio
      = joinSpace ((Processor.split_into_sentences text).take
          (ArticleSummarizer.ratio_num_sentences
            (Processor.split_into_sentences text).length ratio).toNat) := by
  simp only [ArticleSummarizer.fallback_summarize, if_neg hne]
  rw [pySliceTo_of_nonneg
    (le_trans (by norm_num) (ratio_num_sentences_pos _ ratio))]

theorem fallback_nil {text : List Char}
    (hnil : Processor.split_into_sentences text = []) (ratio : ℚ) :
    ArticleSummarizer.fallback_summarize text ratio = [] := by
  simp only [ArticleSummarizer.fallback_summarize, hnil, if_pos]

theorem fallback_ne_nil {text : List Char} (ratio : ℚ)
    (hne : Processor.split_into_sentences text ≠ []) :
    ArticleSummarizer.fallback_summarize text ratio ≠ [] := by
  rw [fallback_eq_take ratio hne]
  obtain ⟨s, rest, hsr⟩ : ∃ s rest, Processor.split_into_sentences text = s :: rest := by
    cases hc : Processor.split_into_sentences text with
    | nil => exact absurd hc hne
    | cons a b => exact ⟨a, b, rfl⟩
  rw [hsr]
  have hk : 1 ≤ (ArticleSummarizer.ratio_num_sentences (s :: rest).length ratio).toNat := by
    have := ratio_num_sentences_pos (s :: rest).length ratio
    omega
  cases hkn : (ArticleSummarizer.ratio_num_sentences (s :: rest).length ratio).toNat with
  | zero => omega
  | succ k =>
    rw [List.take_succ_cons]
    exact joinSep_ne_nil (proc_split_sentences_ne_nil (hsr ▸ List.mem_cons_self s rest))

theorem article_summarize_fallback
    (run : List Char → ℚ → Except String (List Char)) {text : List Char}
    (ratio : ℚ) (ht : text ≠ []) {e : String}
    (herr : run (Processor.clean text) ratio = Except.error e) :
    ArticleSummarizer.summarize run text ratio
      = Except.ok (ArticleSummarizer.fallback_summarize (Processor.clean text) ratio) := by
  simp only [ArticleSummarizer.summarize, if_neg ht, herr]

/-! ### Cleaning normal forms (for the idempotence analysis) -/

theorem goodChar_space : GoodChar ' ' :=
  ⟨by decide, by decide, fun _ => rfl⟩

theorem goodChar_of_mem_clean {x : List Char} {c : Char}
    (h : c ∈ TextProcessor.clean x) : GoodChar c := by
  by_cases hx : x = []
  · subst hx
    simp [TextProcessor.clean] at h
  · unfold TextProcessor.clean at h
    rw [if_neg hx] at h
    have h1 : c ∈ (collapseWS (entitySub (removeTags (lowerL x)))).filter Kept :=
      pyStrip_subset h
    have hkept : Kept c = true := (List.mem_filter.1 h1).2
    have h2 : c ∈ collapseWS (entitySub (removeTags (lowerL x))) :=
      (List.mem_filter.1 h1).1
    have hws : isPySpace c = true → c = ' ' := fun hw => ws_mem_collapseWS hw h2
    have hlow : lowerChar c = c := by
      rcases mem_collapseWS h2 with h3 | h3
      · rcases mem_entitySub h3 with h4 | h4
        · exact mem_lowerL_fix ((removeTagsGo_sublist _ _).subset h4)
        · rcases h4 with h5 | h5 | h5 | h5 <;> subst h5 <;> decide
      · subst h3
        decide
    exact ⟨hkept, hlow, hws⟩

theorem goodChar_of_mem_procClean {x : List Char} {c : Char}
    (h : c ∈ Processor.clean x) : GoodChar c := by
  by_cases hx : x = []
  · subst hx
    simp [Processor.clean] at h
  · unfold Processor.clean at h
    rw [if_neg hx] at h
    have hnl : '\n' ∉ (collapseWS (entitySub (procRemoveTags (lowerL x)))).filter Kept := by
      intro hm
      have h2 := (List.mem_filter.1 hm).1
      have h3 := ws_mem_collapseWS (by decide) h2
      exact absurd h3 (by decide)
    rw [normalizeParagraphs_not_mem hnl] at h
    have h1 : c ∈ (collapseWS (entitySub (procRemoveTags (lowerL x)))).filter Kept :=
      pyStrip_subset h
    have hkept : Kept c = true := (List.mem_filter.1 h1).2
    have h2 : c ∈ collapseWS (entitySub (procRemoveTags (lowerL x))) :=
      (List.mem_filter.1 h1).1
    have hws : isPySpace c = true → c = ' ' := fun hw => ws_mem_collapseWS hw h2
    have hlow : lowerChar c = c := by
      rcases mem_collapseWS h2 with h3 | h3
      · rcases mem_entitySub h3 with h4 | h4
        · exact mem_lowerL_fix ((procRemoveTagsGo_sublist _ _).subset h4)
        · rcases h4 with h5 | h5 | h5 | h5 <;> subst h5 <;> decide
      · subst h3
        decide
    exact ⟨hkept, hlow, hws⟩

theorem clean_of_good {y : List Char} (hg : ∀ c ∈ y, GoodChar c) :
    TextProcessor.clean y = pyStrip (collapseWS y) := by
  by_cases hy : y = []
  · subst hy
    rfl
  · unfold TextProcessor.clean
    rw [if_neg hy]
    rw [lowerL_fix (fun c hc => (hg c hc).2.1)]
    rw [removeTags_not_mem (fun hm => absurd (hg '<' hm).1 (by decide))]
    rw [entitySub_not_mem (fun hm => absurd (hg '&' hm).1 (by decide))
      (fun hm => absurd (hg '<' hm).1 (by decide))
      (fun hm => absurd (hg '>' hm).1 (by decide))]
    congr 1
    apply List.filter_eq_self.2
    intro c hc
    rcases mem_collapseWS hc with h1 | h1
    · exact (hg c h1).1
    · subst h1
      decide

theorem procClean_of_good {y : List Char} (hg : ∀ c ∈ y, GoodChar c) :
    Processor.clean y = pyStrip (collapseWS y) := by
  by_cases hy : y = []
  · subst hy
    rfl
  · unfold Processor.clean
    rw [if_neg hy]
    rw [lowerL_fix (fun c hc => (hg c hc).2.1)]
    rw [procRemoveTags_not_mem (fun hm => absurd (hg '<' hm).1 (by decide))]
    rw [entitySub_not_mem (fun hm => absurd (hg '&' hm).1 (by decide))
      (fun hm => absurd (hg '<' hm).1 (by decide))
      (fun hm => absurd (hg '>' hm).1 (by decide))]
    have hfil : (collapseWS y).filter Kept = collapseWS y := by
      apply List.filter_eq_self.2
      intro c hc
      rcases mem_collapseWS hc with h1 | h1
      · exact (hg c h1).1
      · subst h1
        decide
    rw [hfil]
    rw [normalizeParagraphs_not_mem (fun hm => by
      have h3 := ws_mem_collapseWS (by decide) hm
      exact absurd h3 (by decide))]

theorem cleanNormal_of_good_strip {y : List Char} (hg : ∀ c ∈ y, GoodChar c) :
    CleanNormal (pyStrip (collapseWS y)) := by
  refine ⟨?_, ?_, ?_⟩
  · intro c hc
    have h1 : c ∈ collapseWS y := pyStrip_subset hc
    rcases mem_collapseWS h1 with h2 | h2
    · exact hg c h2
    · subst h2
      exact goodChar_space
  · exact pyStrip_noTwo (collapseWS_noTwo y)
  · exact pyStrip_idem _

theorem clean_fix {l : List Char} (h : CleanNormal l) : TextProcessor.clean l = l := by
  obtain ⟨hg, hnt, hst⟩ := h
  rw [clean_of_good hg]
  rw [collapseWS_fix l (fun c hc hw => (hg c hc).2.2 hw) hnt, hst]

theorem procClean_fix {l : List Char} (h : CleanNormal l) : Processor.clean l = l := by
  obtain ⟨hg, hnt, hst⟩ := h
  rw [procClean_of_good hg]
  rw [collapseWS_fix l (fun c hc hw => (hg c hc).2.2 hw) hnt, hst]

theorem clean_clean_normal (x : List Char) :
    CleanNormal (TextProcessor.clean (TextProcessor.clean x)) := by
  have hgy : ∀ c ∈ TextProcessor.clean x, GoodChar c :=
    fun c hc => goodChar_of_mem_clean hc
  rw [clean_of_good hgy]
  exact cleanNormal_of_good_strip hgy

theorem procClean_procClean_normal (x : List Char) :
    CleanNormal (Processor.clean (Processor.clean x)) := by
  have hgy : ∀ c ∈ Processor.clean x, GoodChar c :=
    fun c hc => goodChar_of_mem_procClean hc
  rw [procClean_of_good hgy]
  exact cleanNormal_of_good_strip hgy

/-! ### Claim theorems -/

/-- C1: on every input, the sentence indices selected for the summary are
emitted in ascending position order - by `TextSummarizer.summarize`'s
selection (`selected_indices`) and by `ArticleSummarizer._select_sentences`
(`select_indices`) - regardless of the descending-score ranking order. -/
theorem c1_order_preservation :
    (∀ (sentences : List (List Char)) (ratio : ℚ) (min_sentences : ℤ),
      List.Sorted (· ≤ ·) (TextSummarizer.selected_indices sentences ratio min_sentences))
    ∧ (∀ (scored : List (Nat × ℚ)) (num : ℤ),
      List.Sorted (· ≤ ·) (ArticleSummarizer.select_indices scored num)) :=
  ⟨fun s r m => sorted_selected_indices s r m, fun sc n => sorted_select_indices sc n⟩

/-- C2 counterexample: the claim says every public summarization entry point
returns an empty summary on empty input and never raises, but
`ArticleSummarizer.summarize` raises `ValueError` on the empty string. -/
theorem c2_counterexample :
    ArticleSummarizer.summarize (ArticleSummarizer.gensim_run (fun _ => false) none)
      "".toList (3/10) = Except.error "Empty text provided for summarization" := rfl

/-- C2 (amended): `TextSummarizer.summarize` returns the empty string on empty
and whitespace-only input without raising; `ArticleSummarizer.summarize`
raises `ValueError("Empty text provided for summarization")` on the empty
string, and returns the empty string without raising on whitespace-only
(non-empty) input. -/
theorem c2_amended (stop : List Char → Bool) (wc : Option ℤ) (ratio : ℚ)
    (min_sentences : ℤ) (text : List Char) (hne : text ≠ [])
    (hws : ∀ c ∈ text, isPySpace c = true) :
    TextSummarizer.summarize [] ratio min_sentences = []
    ∧ TextSummarizer.summarize text ratio min_sentences = []
    ∧ ArticleSummarizer.summarize (ArticleSummarizer.gensim_run stop wc) [] ratio
        = Except.error "Empty text provided for summarization"
    ∧ ArticleSummarizer.summarize (ArticleSummarizer.gensim_run stop wc) text ratio
        = Except.ok [] :=
  ⟨summarize_empty ratio min_sentences, summarize_all_space ratio min_sentences hws,
   article_summarize_empty _ ratio, article_summarize_all_space stop wc ratio hne hws⟩

theorem c2_amended_witness :
    (" ".toList ≠ [] ∧ ∀ c ∈ " ".toList, isPySpace c = true)
    ∧ (TextSummarizer.summarize [] (3/10) 3 = []
       ∧ TextSummarizer.summarize " ".toList (3/10) 3 = []
       ∧ ArticleSummarizer.summarize (ArticleSummarizer.gensim_run (fun _ => false) none)
           [] (3/10) = Except.error "Empty text provided for summarization"
       ∧ ArticleSummarizer.summarize (ArticleSummarizer.gensim_run (fun _ => false) none)
           " ".toList (3/10) = Except.ok []) :=
  ⟨⟨by decide, by decide⟩,
   c2_amended (fun _ => false) none (3/10) 3 " ".toList (by decide) (by decide)⟩

/-- C3 counterexample: the claim says `split_into_sentences` discards
fragments of fewer than 4 tokens, so that "Short." splits to the empty list,
summarizes to the empty string and reports `num_sentences = 0`; in the code
neither splitter has such a filter, and all three consequences fail. -/
theorem c3_counterexample :
    TextProcessor.split_into_sentences "Short.".toList ≠ []
    ∧ Processor.split_into_sentences "Short.".toList ≠ []
    ∧ (TextProcessor.get_text_stats "Short.".toList).num_sentences ≠ 0
    ∧ TextSummarizer.summarize "Short.".toList (3/10) 3 ≠ [] := by
  refine ⟨by decide, by decide, by decide, ?_⟩
  rw [summarize_all (3/10) (by decide) (by decide)]
  decide

/-- C3 (amended): `split_into_sentences` keeps every non-empty fragment
regardless of its token count (there is no minimum-token noise filter): for
"Short." it returns the one-sentence list (["short"] after cleaning,
["Short."] for the processor variant), the summary is "short.", and
`get_text_stats` reports `num_sentences = 1`, `num_words = 1`. -/
theorem c3_amended (l s : List Char)
    (hs : s ∈ TextProcessor.split_into_sentences l) :
    s ≠ []
    ∧ TextProcessor.split_into_sentences "Short.".toList = ["Short".toList]
    ∧ Processor.split_into_sentences "Short.".toList = ["Short.".toList]
    ∧ TextSummarizer.summarize "Short.".toList (3/10) 3 = "short.".toList
    ∧ (TextProcessor.get_text_stats "Short.".toList).num_sentences = 1
    ∧ (TextProcessor.get_text_stats "Short.".toList).num_words = 1 := by
  refine ⟨?_, by decide, by decide, ?_, by decide, by decide⟩
  · unfold TextProcessor.split_into_sentences at hs
    have := List.of_mem_filter hs
    simpa using this
  · rw [summarize_all (3/10) (by decide) (by decide)]
    decide

theorem c3_amended_witness :
    ("Short".toList ∈ TextProcessor.split_into_sentences "Short.".toList)
    ∧ ("Short".toList ≠ []
       ∧ TextProcessor.split_into_sentences "Short.".toList = ["Short".toList]
       ∧ Processor.split_into_sentences "Short.".toList = ["Short.".toList]
       ∧ TextSummarizer.summarize "Short.".toList (3/10) 3 = "short.".toList
       ∧ (TextProcessor.get_text_stats "Short.".toList).num_sentences = 1
       ∧ (TextProcessor.get_text_stats "Short.".toList).num_words = 1) :=
  ⟨by decide, c3_amended "Short.".toList "Short".toList (by decide)⟩

/-- C4: if the dispatched scoring computation raises (models the except
branch of `ArticleSummarizer.summarize`), the result is the positional
fallback on the cleaned text; the fallback returns exactly the first
`max 1 (round (n * ratio))` sentences (clamped to `n`) in source order, is
non-empty whenever the input has at least one sentence, and returns the
empty string exactly on sentence-free input. -/
theorem c4_fallback (run : List Char → ℚ → Except String (List Char))
    (text : List Char) (ratio : ℚ) (e : String) (ht : text ≠ [])
    (herr : run (Processor.clean text) ratio = Except.error e) :
    ArticleSummarizer.summarize run text ratio
      = Except.ok (ArticleSummarizer.fallback_summarize (Processor.clean text) ratio)
    ∧ (∀ t : List Char, Processor.split_into_sentences t ≠ [] →
        ArticleSummarizer.fallback_summarize t ratio
          = joinSpace ((Processor.split_into_sentences t).take
              (ArticleSummarizer.ratio_num_sentences
                (Processor.split_into_sentences t).length ratio).toNat)
        ∧ ((Processor.split_into_sentences t).take
              (ArticleSummarizer.ratio_num_sentences
                (Processor.split_into_sentences t).length ratio).toNat).length
            = min (ArticleSummarizer.ratio_num_sentences
                  (Processor.split_into_sentences t).length ratio).toNat
                (Processor.split_into_sentences t).length
        ∧ ArticleSummarizer.fallback_summarize t ratio ≠ [])
    ∧ (∀ t : List Char, Processor.split_into_sentences t = [] →
        ArticleSummarizer.fallback_summarize t ratio = []) := by
  refine ⟨article_summarize_fallback run ratio ht herr, ?_, ?_⟩
  · intro t hne
    exact ⟨fallback_eq_take ratio hne, List.length_take _ _, fallback_ne_nil ratio hne⟩
  · intro t hnil
    exact fallback_nil hnil ratio

theorem c4_fallback_witness :
    ("One two. Three four.".toList ≠ []
     ∧ (fun (_ : List Char) (_ : ℚ) =>
          (Except.error "scoring failed" : Except String (List Char)))
        (Processor.clean "One two. Three four.".toList) (3/10)
          = Except.error "scoring failed")
    ∧ (ArticleSummarizer.summarize
        (fun (_ : List Char) (_ : ℚ) =>
          (Except.error "scoring failed" : Except String (List Char)))
        "One two. Three four.".toList (3/10)
      = Except.ok (ArticleSummarizer.fallback_summarize
          (Processor.clean "One two. Three four.".toList) (3/10))
    ∧ (∀ t : List Char, Processor.split_into_sentences t ≠ [] →
        ArticleSummarizer.fallback_summarize t (3/10)
          = joinSpace ((Processor.split_into_sentences t).take
              (ArticleSummarizer.ratio_num_sentences
                (Processor.split_into_sentences t).length (3/10)).toNat)
        ∧ ((Processor.split_into_sentences t).take
              (ArticleSummarizer.ratio_num_sentences
                (Processor.split_into_sentences t).length (3/10)).toNat).length
            = min (ArticleSummarizer.ratio_num_sentences
                  (Processor.split_into_sentences t).length (3/10)).toNat
                (Processor.split_into_sentences t).length
        ∧ ArticleSummarizer.fallback_summarize t (3/10) ≠ [])
    ∧ (∀ t : List Char, Processor.split_into_sentences t = [] →
        ArticleSummarizer.fallback_summarize t (3/10) = [])) :=
  ⟨⟨by decide, rfl⟩,
   c4_fallback _ "One two. Three four.".toList (3/10) "scoring failed" (by decide) rfl⟩

/-- C5: with only a ratio target, the number of selected sentences equals
`min(total, max(min_sentences, round(total * ratio)))`; with
`min_sentences = 3` any source of at least 3 sentences keeps at least 3, and
a 10-sentence source at ratio 0.3 keeps exactly 3. -/
theorem c5_sentence_budget (sentences : List (List Char)) (ratio : ℚ)
    (min_sentences : ℤ) (hm : 1 ≤ min_sentences) :
    (TextSummarizer.selected_indices sentences ratio min_sentences).length
      = (min (sentences.length : ℤ)
          (max min_sentences (pyRound ((sentences.length : ℚ) * ratio)))).toNat
    ∧ (min_sentences = 3 → 3 ≤ sentences.length →
        3 ≤ (TextSummarizer.selected_indices sentences ratio min_sentences).length)
    ∧ (min_sentences = 3 → sentences.length = 10 → ratio = 3/10 →
        (TextSummarizer.selected_indices sentences ratio min_sentences).length = 3) := by
  have h0 : (0:ℤ) ≤ min_sentences := by omega
  have hlen := length_selected_indices sentences ratio h0
  refine ⟨hlen, ?_, ?_⟩
  · intro h3 hn
    rw [hlen]
    have := le_max_left min_sentences (pyRound ((sentences.length : ℚ) * ratio))
    omega
  · intro h3 hn hr
    subst h3
    subst hr
    rw [hlen, hn]
    have hcast : ((10:ℕ):ℚ) * (3/10) = ((3:ℤ):ℚ) := by norm_num
    rw [hcast, pyRound_intCast]
    omega

theorem c5_sentence_budget_witness :
    ((1:ℤ) ≤ 3)
    ∧ ((TextSummarizer.selected_indices (List.replicate 10 ['s']) (3/10) 3).length
        = (min ((List.replicate 10 ['s']).length : ℤ)
            (max 3 (pyRound (((List.replicate 10 ['s']).length : ℚ) * (3/10))))).toNat
      ∧ ((3:ℤ) = 3 → 3 ≤ (List.replicate 10 ['s']).length →
          3 ≤ (TextSummarizer.selected_indices (List.replicate 10 ['s']) (3/10) 3).length)
      ∧ ((3:ℤ) = 3 → (List.replicate 10 ['s']).length = 10 → (3/10 : ℚ) = 3/10 →
          (TextSummarizer.selected_indices (List.replicate 10 ['s']) (3/10) 3).length = 3)) :=
  ⟨by decide, c5_sentence_budget (List.replicate 10 ['s']) (3/10) 3 (by decide)⟩

/-- C6: contrary to the spec, no validation rejects a ratio outside (0, 1]:
`TextSummarizer.summarize` silently accepts both ratio 2 and ratio -1 on a
valid three-sentence text and returns an ordinary summary (here all three
sentences, as the budget clamps to the sentence count). -/
theorem c6_no_validation :
    TextSummarizer.summarize "One two three. Four five six. Seven eight nine.".toList 2 3
      = "one two three. four five six. seven eight nine.".toList
    ∧ TextSummarizer.summarize
        "One two three. Four five six. Seven eight nine.".toList (-1) 3
      = "one two three. four five six. seven eight nine.".toList := by
  constructor <;>
  · rw [summarize_all _ (by decide) (by decide)]
    decide

/-- C7: with the input text and a minimum sentence count from its documented
domain fixed, the number of sentences selected is monotonically non-decreasing
in the ratio - for `TextSummarizer.summarize`'s selection and for the
ratio-branch budget of `ArticleSummarizer._extractive_summarize` fed to
`_select_sentences`. -/
theorem c7_ratio_monotone (sentences : List (List Char)) (scored : List (Nat × ℚ))
    (n : Nat) (min_sentences : ℤ) (r1 r2 : ℚ) (hm : 0 ≤ min_sentences) (hr : r1 ≤ r2) :
    (TextSummarizer.selected_indices sentences r1 min_sentences).length
      ≤ (TextSummarizer.selected_indices sentences r2 min_sentences).length
    ∧ (ArticleSummarizer.select_indices scored
        (ArticleSummarizer.ratio_num_sentences n r1)).length
      ≤ (ArticleSummarizer.select_indices scored
          (ArticleSummarizer.ratio_num_sentences n r2)).length := by
  have hpy : pyRound ((sentences.length : ℚ) * r1)
      ≤ pyRound ((sentences.length : ℚ) * r2) :=
    pyRound_mono (mul_le_mul_of_nonneg_left hr (Nat.cast_nonneg _))
  constructor
  · rw [length_selected_indices sentences r1 hm, length_selected_indices sentences r2 hm]
    omega
  · have h1 := ratio_num_sentences_pos n r1
    have h2 := ratio_num_sentences_pos n r2
    have hnum : ArticleSummarizer.ratio_num_sentences n r1
        ≤ ArticleSummarizer.ratio_num_sentences n r2 := by
      unfold ArticleSummarizer.ratio_num_sentences
      have := pyRound_mono (mul_le_mul_of_nonneg_left hr (Nat.cast_nonneg (α := ℚ) n))
      omega
    rw [length_select_indices (by omega) scored, length_select_indices (by omega) scored]
    omega

theorem c7_ratio_monotone_witness :
    ((0:ℤ) ≤ 3 ∧ (0:ℚ) ≤ 1)
    ∧ ((TextSummarizer.selected_indices [['a']] 0 3).length
        ≤ (TextSummarizer.selected_indices [['a']] 1 3).length
      ∧ (ArticleSummarizer.select_indices [(0, 0)]
          (ArticleSummarizer.ratio_num_sentences 1 0)).length
        ≤ (ArticleSummarizer.select_indices [(0, 0)]
            (ArticleSummarizer.ratio_num_sentences 1 1)).length) :=
  ⟨⟨by norm_num, by norm_num⟩,
   c7_ratio_monotone [['a']] [(0, 0)] 1 3 0 1 (by norm_num) (by norm_num)⟩

/-- C8 counterexample: cleaning is not idempotent in either variant - on
"a @ b" the special-character removal leaves two adjacent spaces that only a
second pass collapses. -/
theorem c8_counterexample :
    TextProcessor.clean (TextProcessor.clean "a @ b".toList)
        ≠ TextProcessor.clean "a @ b".toList
    ∧ Processor.clean (Processor.clean "a @ b".toList)
        ≠ Processor.clean "a @ b".toList := by
  constructor <;> decide

/-- C8 (amended): one cleaning pass is not idempotent (dropping a special
character can leave two adjacent spaces, e.g. on "a @ b"), but cleaning is
idempotent from the second application on: for every string x and both
cleaner variants, `clean(clean(clean x)) = clean(clean x)`. -/
theorem c8_amended (x : List Char) :
    TextProcessor.clean (TextProcessor.clean (TextProcessor.clean x))
      = TextProcessor.clean (TextProcessor.clean x)
    ∧ Processor.clean (Processor.clean (Processor.clean x))
      = Processor.clean (Processor.clean x) :=
  ⟨clean_fix (clean_clean_normal x), procClean_fix (procClean_procClean_normal x)⟩

/-- C9: `get_summary_stats` reports `compression_ratio` as the summary word
count divided by the original word count, guarded to 0 when the original has
no words; on the ten-word/three-word scenario it is exactly 3/10. -/
theorem c9_compression (original summary : List Char) :
    (TextSummarizer.get_summary_stats original summary).compression_ratio
      = (if 0 < (pySplitWS original).length
         then ((pySplitWS summary).length : ℚ) / ((pySplitWS original).length : ℚ)
         else 0)
    ∧ (TextSummarizer.get_summary_stats "a b c d e f g h i j".toList
        "a b c".toList).compression_ratio = 3/10
    ∧ (TextSummarizer.get_summary_stats [] "a b c".toList).compression_ratio = 0 := by
  refine ⟨rfl, ?_, rfl⟩
  have ho : (pySplitWS "a b c d e f g h i j".toList).length = 10 := by decide
  have hs : (pySplitWS "a b c".toList).length = 3 := by decide
  show (if 0 < (pySplitWS "a b c d e f g h i j".toList).length
      then ((pySplitWS "a b c".toList).length : ℚ)
            / ((pySplitWS "a b c d e f g h i j".toList).length : ℚ)
      else 0) = 3/10
  rw [ho, hs]
  norm_num

/-- C10: whenever the cleaned text splits into n sentences with
1 ≤ n ≤ min_sentences, `TextSummarizer.summarize` selects all n of them: the
selected indices are exactly 0..n-1 and the summary is the whole cleaned
sentence list rejoined, never a proper subset. -/
theorem c10_short_text_keeps_all (text : List Char) (ratio : ℚ) (min_sentences : ℤ)
    (h1 : 1 ≤ (TextProcessor.split_into_sentences (TextProcessor.clean text)).length)
    (h2 : ((TextProcessor.split_into_sentences (TextProcessor.clean text)).length : ℤ)
            ≤ min_sentences) :
    TextSummarizer.selected_indices
        (TextProcessor.split_into_sentences (TextProcessor.clean text)) ratio min_sentences
      = List.range (TextProcessor.split_into_sentences (TextProcessor.clean text)).length
    ∧ TextSummarizer.summarize text ratio min_sentences
      = TextSummarizer.addFinalPeriod (joinDotSpace
          (TextProcessor.split_into_sentences (TextProcessor.clean text))) := by
  have hne : TextProcessor.split_into_sentences (TextProcessor.clean text) ≠ [] := by
    intro h
    rw [h] at h1
    simp at h1
  exact ⟨selected_indices_all _ ratio h2, summarize_all ratio hne h2⟩

theorem c10_short_text_keeps_all_witness :
    (1 ≤ (TextProcessor.split_into_sentences
        (TextProcessor.clean "Alpha beta. Gamma delta.".toList)).length
     ∧ ((TextProcessor.split_into_sentences
        (TextProcessor.clean "Alpha beta. Gamma delta.".toList)).length : ℤ) ≤ 3)
    ∧ (TextSummarizer.selected_indices
        (TextProcessor.split_into_sentences
          (TextProcessor.clean "Alpha beta. Gamma delta.".toList)) (3/10) 3
      = List.range (TextProcessor.split_into_sentences
          (TextProcessor.clean "Alpha beta. Gamma delta.".toList)).length
    ∧ TextSummarizer.summarize "Alpha beta. Gamma delta.".toList (3/10) 3
      = TextSummarizer.addFinalPeriod (joinDotSpace
          (TextProcessor.split_into_sentences
            (TextProcessor.clean "Alpha beta. Gamma delta.".toList)))) :=
  ⟨⟨by decide, by decide⟩,
   c10_short_text_keeps_all "Alpha beta. Gamma delta.".toList (3/10) 3
     (by decide) (by decide)⟩

end ArticleScraper
